import Mathlib

/-!
Verification of the category-filtering map application (src/app.js).

The source is browser JavaScript operating on a parsed JSON document
(the GeoJSON feed) and on two insertion-ordered maps
(categoryCounts : Map category -> number, categoryLayers : Map category -> layer).
We embed the JSON/JS value universe as the inductive type JSVal, JS Map
objects as insertion-ordered association lists, and the Leaflet map
attachment state (map.hasLayer) as the list of category keys whose layer
is currently attached.  JS numbers are modelled as integers: the code
never does arithmetic on coordinate values, it only stores them and
tests typeof, so the float/int distinction is irrelevant to the claims.
String(v).trim() is modelled with jsTrim below, which agrees with the JS
trim on the ASCII whitespace appearing in the feed and in the claims.
-/

namespace IMap

/-- JS/JSON values as they occur in the parsed feed document: undefined,
null, booleans, numbers, strings, arrays and plain objects (an object is
an insertion-ordered list of string-keyed fields). -/
inductive JSVal where
  | vUndef
  | vNull
  | vBool (b : Bool)
  | vNum (n : Int)
  | vStr (s : String)
  | vArr (elems : List JSVal)
  | vObj (fields : List (String × JSVal))

mutual

/-- Decidable equality on JS values (written by hand: the nested list
occurrences prevent automatic derivation). -/
def decEqJSVal : (a b : JSVal) → Decidable (a = b)
  | .vUndef, .vUndef => isTrue rfl
  | .vNull, .vNull => isTrue rfl
  | .vBool a, .vBool b =>
    if h : a = b then isTrue (by rw [h]) else isFalse (by simp [h])
  | .vNum a, .vNum b =>
    if h : a = b then isTrue (by rw [h]) else isFalse (by simp [h])
  | .vStr a, .vStr b =>
    if h : a = b then isTrue (by rw [h]) else isFalse (by simp [h])
  | .vArr xs, .vArr ys =>
    match decEqJSList xs ys with
    | isTrue h => isTrue (by rw [h])
    | isFalse h => isFalse (by simp [h])
  | .vObj xs, .vObj ys =>
    match decEqJSFields xs ys with
    | isTrue h => isTrue (by rw [h])
    | isFalse h => isFalse (by simp [h])
  | .vUndef, .vNull | .vUndef, .vBool _ | .vUndef, .vNum _ | .vUndef, .vStr _
  | .vUndef, .vArr _ | .vUndef, .vObj _
  | .vNull, .vUndef | .vNull, .vBool _ | .vNull, .vNum _ | .vNull, .vStr _
  | .vNull, .vArr _ | .vNull, .vObj _
  | .vBool _, .vUndef | .vBool _, .vNull | .vBool _, .vNum _ | .vBool _, .vStr _
  | .vBool _, .vArr _ | .vBool _, .vObj _
  | .vNum _, .vUndef | .vNum _, .vNull | .vNum _, .vBool _ | .vNum _, .vStr _
  | .vNum _, .vArr _ | .vNum _, .vObj _
  | .vStr _, .vUndef | .vStr _, .vNull | .vStr _, .vBool _ | .vStr _, .vNum _
  | .vStr _, .vArr _ | .vStr _, .vObj _
  | .vArr _, .vUndef | .vArr _, .vNull | .vArr _, .vBool _ | .vArr _, .vNum _
  | .vArr _, .vStr _ | .vArr _, .vObj _
  | .vObj _, .vUndef | .vObj _, .vNull | .vObj _, .vBool _ | .vObj _, .vNum _
  | .vObj _, .vStr _ | .vObj _, .vArr _ => isFalse nofun

/-- Decidable equality on lists of JS values. -/
def decEqJSList : (a b : List JSVal) → Decidable (a = b)
  | [], [] => isTrue rfl
  | [], _ :: _ => isFalse nofun
  | _ :: _, [] => isFalse nofun
  | x :: xs, y :: ys =>
    match decEqJSVal x y, decEqJSList xs ys with
    | isTrue h1, isTrue h2 => isTrue (by rw [h1, h2])
    | isFalse h1, _ => isFalse (by simp [h1])
    | _, isFalse h2 => isFalse (by simp [h2])

/-- Decidable equality on object field lists. -/
def decEqJSFields : (a b : List (String × JSVal)) → Decidable (a = b)
  | [], [] => isTrue rfl
  | [], _ :: _ => isFalse nofun
  | _ :: _, [] => isFalse nofun
  | (k1, v1) :: xs, (k2, v2) :: ys =>
    if hk : k1 = k2 then
      match decEqJSVal v1 v2, decEqJSFields xs ys with
      | isTrue h1, isTrue h2 => isTrue (by rw [hk, h1, h2])
      | isFalse h1, _ => isFalse (by simp [h1])
      | _, isFalse h2 => isFalse (by simp [h2])
    else isFalse (by simp [hk])

end

instance : DecidableEq JSVal := decEqJSVal

/-- JS truthiness: undefined, null, false, 0 and the empty string are
falsy; every object and array is truthy.  (NaN and -0 do not arise in the
integer model.) -/
def truthy : JSVal → Bool
  | .vUndef => false
  | .vNull => false
  | .vBool b => b
  | .vNum n => n != 0
  | .vStr s => s != ""
  | .vArr _ => true
  | .vObj _ => true

/-- JS a || b : the left operand if truthy, else the right operand. -/
def jsOr (a b : JSVal) : JSVal :=
  if truthy a then a else b

mutual

/-- JS String(v) conversion for the values of the model: numbers print in
decimal, arrays join their elements with commas (null/undefined elements
print as empty), plain objects print as [object Object]. -/
def jsToString : JSVal → String
  | .vUndef => "undefined"
  | .vNull => "null"
  | .vBool b => cond b "true" "false"
  | .vNum n => toString n
  | .vStr s => s
  | .vArr l => jsArrToString l
  | .vObj _ => "[object Object]"

/-- Array.prototype.toString: elements joined with commas, where null
and undefined elements print as the empty string. -/
def jsArrToString : List JSVal → String
  | [] => ""
  | [.vUndef] => ""
  | [.vNull] => ""
  | [v] => jsToString v
  | .vUndef :: rest => "," ++ jsArrToString rest
  | .vNull :: rest => "," ++ jsArrToString rest
  | v :: rest => jsToString v ++ "," ++ jsArrToString rest

end

/-- Embedding of JS String.prototype.trim: drop whitespace characters
from both ends.  Implemented structurally over the character list (the
core library trim is extensionally the same function but is compiled by
well-founded recursion on byte positions, which would block concrete
evaluation in proofs). -/
def jsTrim (s : String) : String :=
  String.mk (((s.data.dropWhile Char.isWhitespace).reverse.dropWhile Char.isWhitespace).reverse)

/-- Association-list lookup with default, the model of
m.get(k) || d / (m.get(k) ?? d) on a JS Map and of record field access
with a default.  The first entry with the given key wins. -/
def mapGetD {α β : Type} [DecidableEq α] : List (α × β) → α → β → β
  | [], _, d => d
  | p :: rest, k, d => if p.1 == k then p.2 else mapGetD rest k d

/-- Membership test m.has(k) on a JS Map. -/
def hasEntry {α β : Type} [DecidableEq α] (m : List (α × β)) (k : α) : Bool :=
  m.any (fun p => p.1 == k)

/-- JS Map.set(k, v): overwrite the entry in place if the key is present
(keeping its position in insertion order), else append a new entry. -/
def mapSet {α β : Type} [DecidableEq α] (m : List (α × β)) (k : α) (v : β) : List (α × β) :=
  if hasEntry m k then m.map (fun p => if p.1 == k then (k, v) else p)
  else m ++ [(k, v)]

/-- Property access obj?.[k] (and obj.k for the fixed keys used by the
code): the field value on an object that has the field, undefined on a
missing field and on every non-object receiver (including null and
undefined, which the source guards with ?. or with || \x7b\x7d). -/
def objGet (obj : JSVal) (k : String) : JSVal :=
  match obj with
  | .vObj fields => mapGetD fields k JSVal.vUndef
  | _ => JSVal.vUndef

/-- Embedding of pickProp (src/app.js lines 14-22): walk the candidate
keys in order; skip a key whose value is undefined or null, or whose
string form trims to the empty string; return the first remaining raw
value; return the fallback if no key qualifies. -/
def pickProp (obj : JSVal) (keys : List String) (fallback : JSVal) : JSVal :=
  match keys with
  | [] => fallback
  | k :: rest =>
    let v := objGet obj k
    if v == JSVal.vUndef || v == JSVal.vNull then pickProp obj rest fallback
    else if jsTrim (jsToString v) != "" then v
    else pickProp obj rest fallback

/-- A candidate key is blank for a record when pickProp would skip it:
the value is undefined or null, or its string form trims to empty. -/
def blankProp (obj : JSVal) (k : String) : Bool :=
  let v := objGet obj k
  v == JSVal.vUndef || v == JSVal.vNull || jsTrim (jsToString v) == ""

/-- Embedding of escapeHTML (src/app.js lines 3-11): String(value ?? "")
followed by the five sequential replaceAll calls. -/
def escapeHTML (value : JSVal) : String :=
  let s := match value with
    | .vUndef => ""
    | .vNull => ""
    | v => jsToString v
  ((((s.replace "&" "&amp;").replace "<" "&lt;").replace ">" "&gt;").replace "\"" "&quot;").replace "\x27" "&#039;"

/-- Title resolution of popupHTML (src/app.js line 25). -/
def resolveTitle (p : JSVal) : JSVal :=
  pickProp p ["title", "title*"] (JSVal.vStr "Untitled event")

/-- Category resolution of popupHTML and of the ingestion loop
(src/app.js lines 26 and 224). -/
def resolveCategory (p : JSVal) : JSVal :=
  pickProp p ["category", "category *", "category*"] (JSVal.vStr "Uncategorised")

/-- Date resolution of popupHTML (src/app.js line 27). -/
def resolveDate (p : JSVal) : JSVal :=
  pickProp p ["date"] (JSVal.vStr "")

/-- Country resolution of popupHTML (src/app.js line 28). -/
def resolveCountry (p : JSVal) : JSVal :=
  pickProp p ["country"] (JSVal.vStr "")

/-- Description resolution of popupHTML (src/app.js line 29). -/
def resolveDescription (p : JSVal) : JSVal :=
  pickProp p ["description", "description*"] (JSVal.vStr "")

/-- Geocode-confidence resolution of popupHTML (src/app.js line 30). -/
def resolveConfidence (p : JSVal) : JSVal :=
  pickProp p ["geocode_confidence"] (JSVal.vStr "")

/-- Geocode-method resolution of popupHTML (src/app.js line 31). -/
def resolveMethod (p : JSVal) : JSVal :=
  pickProp p ["geocode_method"] (JSVal.vStr "")

/-- The seven resolved field values of popupHTML, in source order, before
HTML escaping.  This is the semantic payload of popupHTML lines 25-31. -/
def popupFields (p : JSVal) : List JSVal :=
  [resolveTitle p, resolveCategory p, resolveDate p, resolveCountry p,
   resolveDescription p, resolveConfidence p, resolveMethod p]

/-- Embedding of popupHTML (src/app.js lines 24-46): escape each resolved
field, keep the truthy meta parts, and assemble the template string. -/
def popupHTML (p : JSVal) : String :=
  let title := escapeHTML (resolveTitle p)
  let category := escapeHTML (resolveCategory p)
  let date := escapeHTML (resolveDate p)
  let country := escapeHTML (resolveCountry p)
  let desc := escapeHTML (resolveDescription p)
  let metaParts := [category,
    if date != "" then "Date: " ++ date else "",
    if country != "" then "Country: " ++ country else ""].filter (fun s => s != "")
  "\n    <div class=\"popup\">\n      <h3>" ++ title ++
    "</h3>\n      <p class=\"meta\">" ++ String.intercalate " • " metaParts ++
    "</p>\n      <p class=\"desc\">" ++ desc ++ "</p>\n    </div>\n  "

/-- A surviving marker of the ingestion loop: its position (note the feed
stores [lon, lat], the marker swaps to [lat, lon]), the raw properties
object, the resolved category value and the bound popup HTML. -/
structure Event where
  lat : Int
  lon : Int
  props : JSVal
  category : JSVal
  popup : String
deriving DecidableEq

/-- Per-feature validation and construction of the ingestion loop
(src/app.js lines 216-228): none is the skipped outcome.  A feature is
skipped when it is falsy or its type is not "Feature"; when the type of
geometry (defaulted to an empty object) is not "Point"; when coordinates
is not an array of length exactly 2; or when either component is not a
number.  A surviving feature yields the Event. -/
def featureEvent (feature : JSVal) : Option Event :=
  if ¬ truthy feature then none
  else if objGet feature "type" != JSVal.vStr "Feature" then none
  else
    let geom := jsOr (objGet feature "geometry") (JSVal.vObj [])
    let props := jsOr (objGet feature "properties") (JSVal.vObj [])
    if objGet geom "type" != JSVal.vStr "Point" then none
    else
      match objGet geom "coordinates" with
      | .vArr [lonV, latV] =>
        match lonV, latV with
        | .vNum lon, .vNum lat =>
          some { lat := lat, lon := lon, props := props,
                 category := resolveCategory props, popup := popupHTML props }
        | _, _ => none
      | _ => none

/-- The mutable module state touched by the ingestion loop: the two
insertion-ordered maps of src/app.js lines 104-105 (per-category counts,
per-category layer contents) and the allMarkers feature group. -/
structure IngestState where
  categoryCounts : List (JSVal × Nat)
  categoryLayers : List (JSVal × List Event)
  allMarkers : List Event
deriving DecidableEq

/-- State before any feature is processed: both maps and the marker
group empty. -/
def initState : IngestState :=
  { categoryCounts := [], categoryLayers := [], allMarkers := [] }

/-- Embedding of getOrCreateCategoryLayer (src/app.js lines 108-120):
normalize a falsy category to "Uncategorised", create an empty layer on
first sight of the key, and return the updated layer map together with
the key of the layer handle. -/
def getOrCreateCategoryLayer (layers : List (JSVal × List Event)) (category : JSVal) :
    List (JSVal × List Event) × JSVal :=
  let key := jsOr category (JSVal.vStr "Uncategorised")
  if hasEntry layers key then (layers, key)
  else (layers ++ [(key, [])], key)

/-- One iteration of the ingestion loop body (src/app.js lines 215-233):
a skipped feature leaves the state unchanged; a surviving feature bumps
the count under its resolved category, appends its marker to the layer
obtained from getOrCreateCategoryLayer, and appends it to allMarkers. -/
def ingestFeature (st : IngestState) (feature : JSVal) : IngestState :=
  match featureEvent feature with
  | none => st
  | some e =>
    let counts := mapSet st.categoryCounts e.category
      (mapGetD st.categoryCounts e.category 0 + 1)
    let lk := getOrCreateCategoryLayer st.categoryLayers e.category
    let layers := mapSet lk.1 lk.2 (mapGetD lk.1 lk.2 [] ++ [e])
    { categoryCounts := counts, categoryLayers := layers,
      allMarkers := st.allMarkers ++ [e] }

/-- Top-level shape test of init (src/app.js line 211): the document is
falsy, its type is not "FeatureCollection", or features is not an array. -/
def malformedFeed (doc : JSVal) : Bool :=
  !(truthy doc) || objGet doc "type" != JSVal.vStr "FeatureCollection" ||
    !(match objGet doc "features" with | .vArr _ => true | _ => false)

/-- The features array of the document (empty for the shapes rejected by
malformedFeed, where the loop is never reached). -/
def featuresOf (doc : JSVal) : List JSVal :=
  match objGet doc "features" with
  | .vArr l => l
  | _ => []

/-- Embedding of the data-load phase of init (src/app.js lines 211-233):
a malformed top-level shape throws (error status, no state produced);
otherwise the loop folds every feature through ingestFeature. -/
def ingest (doc : JSVal) : Except String IngestState :=
  if malformedFeed doc then Except.error "GeoJSON file is not a FeatureCollection"
  else Except.ok ((featuresOf doc).foldl ingestFeature initState)

/-- The state produced by a successful ingest (initState on error); a
convenience accessor for concrete evaluations. -/
def stateOf (doc : JSVal) : IngestState :=
  match ingest doc with
  | .ok st => st
  | .error _ => initState

/-- The markers accumulated by a successful ingest (empty on error). -/
def ingestEvents (doc : JSVal) : List Event :=
  (stateOf doc).allMarkers

/-- Membership test on the set of attached categories (map.hasLayer). -/
def hasKey (l : List JSVal) (k : JSVal) : Bool :=
  l.any (fun x => x == k)

/-- Visibility state right after init (src/app.js line 235): every layer
of categoryLayers is attached to the map. -/
def initVisible (st : IngestState) : List JSVal :=
  st.categoryLayers.map Prod.fst

/-- Embedding of updateVisibleCount (src/app.js lines 122-130): iterate
the layer map and sum categoryCounts.get(cat) || 0 over the categories
whose layer is attached. -/
def visibleCount (st : IngestState) (vis : List JSVal) : Nat :=
  (st.categoryLayers.map
    (fun p => if hasKey vis p.1 then mapGetD st.categoryCounts p.1 0 else 0)).sum

/-- Sum of all accumulated category counts (the values of the
categoryCounts map). -/
def sumCounts (st : IngestState) : Nat :=
  (st.categoryCounts.map Prod.snd).sum

/-- Embedding of one checkbox change handler (src/app.js lines 148-156):
a category without a layer entry is ignored; a checked box attaches the
layer (a no-op when already attached), an unchecked box detaches it. -/
def setCategoryVisible (st : IngestState) (vis : List JSVal) (cat : JSVal) (checked : Bool) :
    List JSVal :=
  if hasEntry st.categoryLayers cat then
    if checked then (if hasKey vis cat then vis else vis ++ [cat])
    else vis.filter (fun x => x != cat)
  else vis

/-- Embedding of buildFiltersUI category ordering (src/app.js line 134):
the layer-map keys sorted with the comparator a.localeCompare(b).  The
locale comparison is a parameter cmp; JS Array.sort with a consistent
comparator returns a sorted permutation, modelled by insertion sort. -/
def allCategories (cmp : JSVal → JSVal → Int) (st : IngestState) : List JSVal :=
  List.insertionSort (fun a b => cmp a b ≤ 0) (st.categoryLayers.map Prod.fst)

/-- Embedding of setAllCheckboxes (src/app.js lines 179-185): dispatch
the change handler for every rendered checkbox, i.e. for every category
in the sorted filter-panel order. -/
def setAllVisible (cmp : JSVal → JSVal → Int) (st : IngestState) (vis : List JSVal)
    (checked : Bool) : List JSVal :=
  (allCategories cmp st).foldl (fun v c => setCategoryVisible st v c checked) vis

/-- Lexicographic three-way comparison of character lists by code
point. -/
def charListCmp : List Char → List Char → Int
  | [], [] => 0
  | [], _ :: _ => -1
  | _ :: _, [] => 1
  | a :: as_, b :: bs =>
    if a.toNat < b.toNat then -1
    else if b.toNat < a.toNat then 1
    else charListCmp as_ bs

/-- Comparator on strings: negative, zero or positive like
localeCompare.  Used to instantiate the locale comparison at witnesses. -/
def strCmp (a b : String) : Int :=
  charListCmp a.data b.data

/-- A total transitive comparator on JSVal values obtained by comparing
string forms; on the string keys produced by ingestion it is a
representative of the locale comparison. -/
def jsCmp (a b : JSVal) : Int :=
  strCmp (jsToString a) (jsToString b)

end IMap


namespace IMap

section MapLemmas

variable {α β : Type} [DecidableEq α]

theorem hasEntry_cons (p : α × β) (rest : List (α × β)) (k : α) :
    hasEntry (p :: rest) k = ((p.1 == k) || hasEntry rest k) := by
  simp [hasEntry]

theorem hasEntry_eq_keys (m : List (α × β)) (k : α) :
    hasEntry m k = (m.map Prod.fst).any (fun x => x == k) := by
  induction m with
  | nil => rfl
  | cons p rest ih => simp [hasEntry, List.any_cons] at ih ⊢; rw [ih]

theorem hasEntry_iff_mem (m : List (α × β)) (k : α) :
    hasEntry m k = true ↔ k ∈ m.map Prod.fst := by
  rw [hasEntry_eq_keys, List.any_eq_true]
  simp

theorem hasEntry_congr {γ : Type} (m1 : List (α × β)) (m2 : List (α × γ)) (k : α)
    (h : m1.map Prod.fst = m2.map Prod.fst) : hasEntry m1 k = hasEntry m2 k := by
  rw [hasEntry_eq_keys, hasEntry_eq_keys, h]

theorem mapGetD_overwrite (m : List (α × β)) (k : α) (v d : β) :
    mapGetD (m.map (fun p => if p.1 == k then (k, v) else p)) k d =
      if hasEntry m k then v else d := by
  induction m with
  | nil => simp [mapGetD, hasEntry]
  | cons p rest ih =>
    rw [List.map_cons, hasEntry_cons]
    by_cases hp : p.1 = k
    · simp [mapGetD, hp]
    · have hb : (p.1 == k) = false := by simpa using hp
      simpa [hb, mapGetD] using ih

theorem mapGetD_append_new (m : List (α × β)) (k : α) (v d : β)
    (h : hasEntry m k = false) : mapGetD (m ++ [(k, v)]) k d = v := by
  induction m with
  | nil => simp [mapGetD]
  | cons p rest ih =>
    rw [hasEntry_cons, Bool.or_eq_false_iff] at h
    rw [List.cons_append, mapGetD, if_neg (by simp [h.1]), ih h.2]

theorem mapGetD_mapSet_self (m : List (α × β)) (k : α) (v d : β) :
    mapGetD (mapSet m k v) k d = v := by
  unfold mapSet
  by_cases h : hasEntry m k
  · rw [if_pos h, mapGetD_overwrite, if_pos h]
  · rw [if_neg h, mapGetD_append_new m k v d (by simpa using h)]

theorem mapGetD_overwrite_ne (m : List (α × β)) (k k2 : α) (v d : β) (hne : k2 ≠ k) :
    mapGetD (m.map (fun p => if p.1 == k then (k, v) else p)) k2 d = mapGetD m k2 d := by
  induction m with
  | nil => rfl
  | cons p rest ih =>
    rw [List.map_cons]
    by_cases hp : p.1 = k
    · rw [if_pos (by simpa using hp), mapGetD, if_neg (by simpa using (Ne.symm hne)),
        mapGetD, if_neg (by simp [hp]; exact Ne.symm hne), ih]
    · rw [if_neg (by simpa using hp)]
      by_cases hp2 : p.1 = k2
      · rw [mapGetD, if_pos (by simpa using hp2), mapGetD, if_pos (by simpa using hp2)]
      · rw [mapGetD, if_neg (by simpa using hp2), mapGetD, if_neg (by simpa using hp2), ih]

theorem mapGetD_append_ne (m : List (α × β)) (k k2 : α) (v d : β) (hne : k2 ≠ k) :
    mapGetD (m ++ [(k, v)]) k2 d = mapGetD m k2 d := by
  induction m with
  | nil => simp [mapGetD, if_neg (by simpa using (Ne.symm hne))]
  | cons p rest ih =>
    by_cases hp2 : p.1 = k2
    · rw [List.cons_append, mapGetD, if_pos (by simpa using hp2), mapGetD,
        if_pos (by simpa using hp2)]
    · rw [List.cons_append, mapGetD, if_neg (by simpa using hp2), mapGetD,
        if_neg (by simpa using hp2), ih]

theorem mapGetD_mapSet_ne (m : List (α × β)) (k k2 : α) (v d : β) (hne : k2 ≠ k) :
    mapGetD (mapSet m k v) k2 d = mapGetD m k2 d := by
  unfold mapSet
  by_cases h : hasEntry m k
  · rw [if_pos h, mapGetD_overwrite_ne m k k2 v d hne]
  · rw [if_neg h, mapGetD_append_ne m k k2 v d hne]

theorem mapSet_map_fst_of_mem (m : List (α × β)) (k : α) (v : β)
    (h : hasEntry m k = true) : (mapSet m k v).map Prod.fst = m.map Prod.fst := by
  rw [mapSet, if_pos h, List.map_map]
  apply List.map_congr_left
  intro p _
  by_cases hp : p.1 = k
  · simp [Function.comp, hp]
  · simp [Function.comp, show (p.1 == k) = false by simpa using hp]

theorem mapSet_map_fst_of_new (m : List (α × β)) (k : α) (v : β)
    (h : hasEntry m k = false) :
    (mapSet m k v).map Prod.fst = m.map Prod.fst ++ [k] := by
  rw [mapSet, if_neg (by simp [h]), List.map_append]
  rfl

theorem mapGetD_cons_ne (p : α × β) (rest : List (α × β)) (k : α) (d : β) (hne : p.1 ≠ k) :
    mapGetD (p :: rest) k d = mapGetD rest k d := by
  rw [mapGetD, if_neg (by simpa using hne)]

theorem mapGetD_cons_self (k : α) (v : β) (rest : List (α × β)) (d : β) :
    mapGetD ((k, v) :: rest) k d = v := by
  simp [mapGetD]

end MapLemmas

theorem hasKey_iff_mem (l : List JSVal) (k : JSVal) : hasKey l k = true ↔ k ∈ l := by
  simp [hasKey, List.any_eq_true]

theorem hasKey_append (l1 l2 : List JSVal) (k : JSVal) :
    hasKey (l1 ++ l2) k = (hasKey l1 k || hasKey l2 k) := by
  simp [hasKey, List.any_append]

theorem hasKey_filter_ne (l : List JSVal) (c k : JSVal) :
    hasKey (l.filter (fun x => x != c)) k = (hasKey l k && (k != c)) := by
  rw [Bool.eq_iff_iff]
  simp only [Bool.and_eq_true, hasKey_iff_mem, List.mem_filter]

end IMap

namespace IMap

theorem jsOr_truthy (a b : JSVal) (h : truthy a = true) : jsOr a b = a := by
  unfold jsOr
  rw [if_pos h]

theorem pickProp_cons (obj : JSVal) (k : String) (rest : List String) (fb : JSVal) :
    pickProp obj (k :: rest) fb =
      (if (objGet obj k == JSVal.vUndef || objGet obj k == JSVal.vNull) = true
       then pickProp obj rest fb
       else if (jsTrim (jsToString (objGet obj k)) != "") = true
       then objGet obj k
       else pickProp obj rest fb) := rfl

theorem pickProp_cons_blank (obj : JSVal) (k : String) (rest : List String) (fb : JSVal)
    (h : blankProp obj k = true) :
    pickProp obj (k :: rest) fb = pickProp obj rest fb := by
  rw [pickProp_cons]
  by_cases h1 : (objGet obj k == JSVal.vUndef || objGet obj k == JSVal.vNull) = true
  · rw [if_pos h1]
  · rw [if_neg h1]
    unfold blankProp at h
    have hc : (jsTrim (jsToString (objGet obj k)) == "") = true := by
      rcases Bool.or_eq_true_iff.mp h with h2 | h2
      · exact absurd h2 h1
      · exact h2
    rw [if_neg (by simp [bne, hc])]

theorem pickProp_cons_present (obj : JSVal) (k : String) (rest : List String) (fb : JSVal)
    (h : blankProp obj k = false) :
    pickProp obj (k :: rest) fb = objGet obj k := by
  unfold blankProp at h
  simp only [Bool.or_eq_false_iff] at h
  rw [pickProp_cons, if_neg (by simp [h.1.1, h.1.2]), if_pos (by simp [bne, h.2])]

theorem pickProp_blank_all (obj : JSVal) (keys : List String) (fb : JSVal)
    (h : ∀ k ∈ keys, blankProp obj k = true) :
    pickProp obj keys fb = fb := by
  induction keys with
  | nil => rfl
  | cons k rest ih =>
    rw [pickProp_cons_blank obj k rest fb (h k (by simp))]
    exact ih (fun k2 hk2 => h k2 (by simp [hk2]))

theorem pickProp_first (obj : JSVal) (fb : JSVal) (ks1 : List String) (k : String)
    (ks2 : List String) (h1 : ∀ x ∈ ks1, blankProp obj x = true)
    (h2 : blankProp obj k = false) :
    pickProp obj (ks1 ++ k :: ks2) fb = objGet obj k := by
  induction ks1 with
  | nil => exact pickProp_cons_present obj k ks2 fb h2
  | cons a rest ih =>
    rw [List.cons_append, pickProp_cons_blank _ _ _ _ (h1 a (by simp))]
    exact ih (fun x hx => h1 x (by simp [hx]))

theorem pickProp_congr (obj1 obj2 : JSVal) (keys : List String) (fb : JSVal)
    (h : ∀ kk ∈ keys, objGet obj1 kk = objGet obj2 kk ∨
          (blankProp obj1 kk = true ∧ blankProp obj2 kk = true)) :
    pickProp obj1 keys fb = pickProp obj2 keys fb := by
  induction keys with
  | nil => rfl
  | cons k2 rest ih =>
    have ih' := ih (fun kk hk => h kk (by simp [hk]))
    rcases h k2 (by simp) with he | ⟨hb1, hb2⟩
    · rw [pickProp_cons, pickProp_cons, he, ih']
    · rw [pickProp_cons_blank _ _ _ _ hb1, pickProp_cons_blank _ _ _ _ hb2, ih']

theorem ingestFeature_skip (st : IngestState) (f : JSVal) (h : featureEvent f = none) :
    ingestFeature st f = st := by
  unfold ingestFeature
  rw [h]

theorem ingestFeature_some (st : IngestState) (f : JSVal) (e : Event)
    (h : featureEvent f = some e) :
    ingestFeature st f = {
      categoryCounts := mapSet st.categoryCounts e.category
        (mapGetD st.categoryCounts e.category 0 + 1),
      categoryLayers := mapSet (getOrCreateCategoryLayer st.categoryLayers e.category).1
        (getOrCreateCategoryLayer st.categoryLayers e.category).2
        (mapGetD (getOrCreateCategoryLayer st.categoryLayers e.category).1
          (getOrCreateCategoryLayer st.categoryLayers e.category).2 [] ++ [e]),
      allMarkers := st.allMarkers ++ [e] } := by
  unfold ingestFeature
  rw [h]

theorem foldl_ingest_allMarkers (fs : List JSVal) (st : IngestState) :
    (fs.foldl ingestFeature st).allMarkers = st.allMarkers ++ fs.filterMap featureEvent := by
  induction fs generalizing st with
  | nil => simp
  | cons f rest ih =>
    rw [List.foldl_cons, ih]
    cases h : featureEvent f with
    | none => rw [ingestFeature_skip st f h, List.filterMap_cons_none h]
    | some e =>
      rw [ingestFeature_some st f e h, List.filterMap_cons_some h]
      simp

theorem filterMap_length_add (l : List JSVal) :
    (l.filterMap featureEvent).length +
      (l.filter (fun f => (featureEvent f).isNone)).length = l.length := by
  induction l with
  | nil => rfl
  | cons f rest ih =>
    cases h : featureEvent f with
    | none =>
      rw [List.filterMap_cons_none h, List.filter_cons_of_pos (by simp [h])]
      simp only [List.length_cons]
      omega
    | some e =>
      rw [List.filterMap_cons_some h, List.filter_cons_of_neg (by simp [h])]
      simp only [List.length_cons]
      omega

theorem getOrCreate_key (layers : List (JSVal × List Event)) (cat : JSVal) :
    (getOrCreateCategoryLayer layers cat).2 = jsOr cat (JSVal.vStr "Uncategorised") := by
  simp only [getOrCreateCategoryLayer]
  split <;> rfl

theorem getOrCreate_map_fst (layers : List (JSVal × List Event)) (cat : JSVal) :
    (getOrCreateCategoryLayer layers cat).1.map Prod.fst =
      (if hasEntry layers (jsOr cat (JSVal.vStr "Uncategorised"))
       then layers.map Prod.fst
       else layers.map Prod.fst ++ [jsOr cat (JSVal.vStr "Uncategorised")]) := by
  simp only [getOrCreateCategoryLayer]
  split
  next h => rfl
  next h => simp

theorem getOrCreate_hasEntry (layers : List (JSVal × List Event)) (cat : JSVal) :
    hasEntry (getOrCreateCategoryLayer layers cat).1
      (getOrCreateCategoryLayer layers cat).2 = true := by
  simp only [getOrCreateCategoryLayer]
  split
  next h => exact h
  next h => simp [hasEntry, List.any_append]

theorem ingestFeature_counts_fst (st : IngestState) (f : JSVal) (e : Event)
    (h : featureEvent f = some e) :
    (ingestFeature st f).categoryCounts.map Prod.fst =
      (if hasEntry st.categoryCounts e.category
       then st.categoryCounts.map Prod.fst
       else st.categoryCounts.map Prod.fst ++ [e.category]) := by
  rw [ingestFeature_some st f e h]
  by_cases hc : hasEntry st.categoryCounts e.category
  · rw [if_pos hc]
    exact mapSet_map_fst_of_mem _ _ _ hc
  · rw [if_neg hc]
    exact mapSet_map_fst_of_new _ _ _ (by simpa using hc)

theorem ingestFeature_layers_fst (st : IngestState) (f : JSVal) (e : Event)
    (h : featureEvent f = some e) :
    (ingestFeature st f).categoryLayers.map Prod.fst =
      (if hasEntry st.categoryLayers (jsOr e.category (JSVal.vStr "Uncategorised"))
       then st.categoryLayers.map Prod.fst
       else st.categoryLayers.map Prod.fst ++ [jsOr e.category (JSVal.vStr "Uncategorised")]) := by
  rw [ingestFeature_some st f e h]
  have h1 := mapSet_map_fst_of_mem (getOrCreateCategoryLayer st.categoryLayers e.category).1
    (getOrCreateCategoryLayer st.categoryLayers e.category).2
    (mapGetD (getOrCreateCategoryLayer st.categoryLayers e.category).1
      (getOrCreateCategoryLayer st.categoryLayers e.category).2 [] ++ [e])
    (getOrCreate_hasEntry st.categoryLayers e.category)
  rw [h1, getOrCreate_map_fst]

end IMap

namespace IMap

/-- Both registries have duplicate-free key lists. -/
def stateKeysNodup (st : IngestState) : Prop :=
  (st.categoryCounts.map Prod.fst).Nodup ∧ (st.categoryLayers.map Prod.fst).Nodup

theorem stateKeysNodup_step (st : IngestState) (f : JSVal) (h : stateKeysNodup st) :
    stateKeysNodup (ingestFeature st f) := by
  cases hfe : featureEvent f with
  | none =>
    rw [ingestFeature_skip st f hfe]
    exact h
  | some e =>
    constructor
    · rw [ingestFeature_counts_fst st f e hfe]
      split
      · exact h.1
      next hc =>
        have hm : e.category ∉ st.categoryCounts.map Prod.fst :=
          fun hm => hc ((hasEntry_iff_mem _ _).mpr hm)
        simp [List.nodup_append, h.1, hm]
    · rw [ingestFeature_layers_fst st f e hfe]
      split
      · exact h.2
      next hc =>
        have hm : jsOr e.category (JSVal.vStr "Uncategorised") ∉
            st.categoryLayers.map Prod.fst :=
          fun hm => hc ((hasEntry_iff_mem _ _).mpr hm)
        simp [List.nodup_append, h.2, hm]

theorem stateKeysNodup_foldl (fs : List JSVal) (st : IngestState) (h : stateKeysNodup st) :
    stateKeysNodup (fs.foldl ingestFeature st) := by
  induction fs generalizing st with
  | nil => exact h
  | cons f rest ih => exact ih _ (stateKeysNodup_step st f h)

theorem keysEq_step (st : IngestState) (f : JSVal)
    (hk : st.categoryCounts.map Prod.fst = st.categoryLayers.map Prod.fst)
    (ht : (featureEvent f).all (fun e => truthy e.category) = true) :
    (ingestFeature st f).categoryCounts.map Prod.fst =
      (ingestFeature st f).categoryLayers.map Prod.fst := by
  cases hfe : featureEvent f with
  | none =>
    rw [ingestFeature_skip st f hfe]
    exact hk
  | some e =>
    have htr : truthy e.category = true := by
      rw [hfe] at ht
      simpa [Option.all] using ht
    rw [ingestFeature_counts_fst st f e hfe, ingestFeature_layers_fst st f e hfe,
      jsOr_truthy _ _ htr, hasEntry_congr st.categoryCounts st.categoryLayers e.category hk]
    by_cases hc : hasEntry st.categoryLayers e.category = true
    · rw [if_pos hc, if_pos hc]
      exact hk
    · rw [if_neg hc, if_neg hc, hk]

theorem keysEq_foldl (fs : List JSVal) (st : IngestState)
    (hk : st.categoryCounts.map Prod.fst = st.categoryLayers.map Prod.fst)
    (ht : ∀ f ∈ fs, (featureEvent f).all (fun e => truthy e.category) = true) :
    (fs.foldl ingestFeature st).categoryCounts.map Prod.fst =
      (fs.foldl ingestFeature st).categoryLayers.map Prod.fst := by
  induction fs generalizing st with
  | nil => exact hk
  | cons f rest ih =>
    exact ih _ (keysEq_step st f hk (ht f (by simp))) (fun g hg => ht g (by simp [hg]))

theorem ingest_ok_state (doc : JSVal) (st : IngestState) (h : ingest doc = .ok st) :
    st = (featuresOf doc).foldl ingestFeature initState := by
  unfold ingest at h
  split at h
  · cases h
  · cases h
    rfl

theorem visibleCount_congr (st : IngestState) (vis1 vis2 : List JSVal)
    (h : ∀ k ∈ st.categoryLayers.map Prod.fst, hasKey vis1 k = hasKey vis2 k) :
    visibleCount st vis1 = visibleCount st vis2 := by
  unfold visibleCount
  congr 1
  apply List.map_congr_left
  intro p hp
  rw [h p.1 (List.mem_map_of_mem Prod.fst hp)]

theorem visibleCount_zero (st : IngestState) (vis : List JSVal)
    (h : ∀ k ∈ st.categoryLayers.map Prod.fst, hasKey vis k = false) :
    visibleCount st vis = 0 := by
  unfold visibleCount
  apply List.sum_eq_zero
  intro x hx
  simp only [List.mem_map] at hx
  obtain ⟨p, hp, rfl⟩ := hx
  rw [h p.1 (List.mem_map_of_mem Prod.fst hp)]
  simp

theorem visibleCount_total (st : IngestState) (vis : List JSVal)
    (h : ∀ k ∈ st.categoryLayers.map Prod.fst, hasKey vis k = true) :
    visibleCount st vis =
      (st.categoryLayers.map (fun p => mapGetD st.categoryCounts p.1 0)).sum := by
  unfold visibleCount
  congr 1
  apply List.map_congr_left
  intro p hp
  rw [h p.1 (List.mem_map_of_mem Prod.fst hp)]
  simp

theorem sum_getD_self (m : List (JSVal × Nat)) (hnd : (m.map Prod.fst).Nodup) :
    ((m.map Prod.fst).map (fun k => mapGetD m k 0)).sum = (m.map Prod.snd).sum := by
  induction m with
  | nil => rfl
  | cons p rest ih =>
    simp only [List.map_cons, List.sum_cons] at *
    rw [show mapGetD (p :: rest) p.1 0 = p.2 from by simp [mapGetD]]
    congr 1
    have hhead : p.1 ∉ rest.map Prod.fst := (List.nodup_cons.mp hnd).1
    rw [List.map_congr_left (fun k hk =>
      mapGetD_cons_ne p rest k 0 (fun hpk => hhead (hpk ▸ hk)))]
    exact ih (List.nodup_cons.mp hnd).2

theorem setCategoryVisible_unreg (st : IngestState) (vis : List JSVal) (cat : JSVal)
    (b : Bool) (h : hasEntry st.categoryLayers cat = false) :
    setCategoryVisible st vis cat b = vis := by
  unfold setCategoryVisible
  rw [if_neg (by simp [h])]

theorem hasKey_setCategoryVisible_true (st : IngestState) (vis : List JSVal) (cat x : JSVal)
    (hreg : hasEntry st.categoryLayers cat = true) :
    hasKey (setCategoryVisible st vis cat true) x = (hasKey vis x || x == cat) := by
  unfold setCategoryVisible
  rw [if_pos hreg]
  simp only [if_true]
  by_cases hv : hasKey vis cat = true
  · rw [if_pos hv]
    by_cases hxc : x = cat
    · subst hxc
      simp [hv]
    · simp [show (x == cat) = false by simpa using hxc]
  · rw [if_neg hv, hasKey_append]
    by_cases hxc : x = cat
    · subst hxc
      simp [hasKey]
    · simp [hasKey, show (cat == x) = false from by simpa using (Ne.symm hxc),
        show (x == cat) = false from by simpa using hxc]

theorem hasKey_setCategoryVisible_false (st : IngestState) (vis : List JSVal) (cat x : JSVal)
    (hreg : hasEntry st.categoryLayers cat = true) :
    hasKey (setCategoryVisible st vis cat false) x = (hasKey vis x && (x != cat)) := by
  unfold setCategoryVisible
  rw [if_pos hreg]
  simp only [Bool.false_eq_true, if_false]
  exact hasKey_filter_ne vis cat x

theorem foldVis_false_le (st : IngestState) (cats : List JSVal) (vis : List JSVal) (x : JSVal)
    (h : hasKey (cats.foldl (fun v c => setCategoryVisible st v c false) vis) x = true) :
    hasKey vis x = true := by
  induction cats generalizing vis with
  | nil => exact h
  | cons c rest ih =>
    rw [List.foldl_cons] at h
    have h1 := ih _ h
    by_cases hreg : hasEntry st.categoryLayers c = true
    · rw [hasKey_setCategoryVisible_false st vis c x hreg] at h1
      simp only [Bool.and_eq_true] at h1
      exact h1.1
    · rwa [setCategoryVisible_unreg st vis c false (by simpa using hreg)] at h1

theorem foldVis_false_kills (st : IngestState) (cats : List JSVal) (vis : List JSVal)
    (c : JSVal) (hc : c ∈ cats) (hreg : hasEntry st.categoryLayers c = true) :
    hasKey (cats.foldl (fun v c2 => setCategoryVisible st v c2 false) vis) c = false := by
  induction cats generalizing vis with
  | nil => cases hc
  | cons a rest ih =>
    rw [List.foldl_cons]
    rcases List.mem_cons.mp hc with rfl | hm
    · rcases hres : hasKey (rest.foldl (fun v c2 => setCategoryVisible st v c2 false)
        (setCategoryVisible st vis c false)) c with _ | _
      · rfl
      · have := foldVis_false_le st rest _ c hres
        rw [hasKey_setCategoryVisible_false st vis c c hreg] at this
        simp at this
    · exact ih _ hm

theorem foldVis_true_le (st : IngestState) (cats : List JSVal) (vis : List JSVal) (x : JSVal)
    (h : hasKey vis x = true) :
    hasKey (cats.foldl (fun v c => setCategoryVisible st v c true) vis) x = true := by
  induction cats generalizing vis with
  | nil => exact h
  | cons c rest ih =>
    rw [List.foldl_cons]
    apply ih
    by_cases hreg : hasEntry st.categoryLayers c = true
    · rw [hasKey_setCategoryVisible_true st vis c x hreg, h]
      rfl
    · rwa [setCategoryVisible_unreg st vis c true (by simpa using hreg)]

theorem foldVis_true_adds (st : IngestState) (cats : List JSVal) (vis : List JSVal)
    (c : JSVal) (hc : c ∈ cats) (hreg : hasEntry st.categoryLayers c = true) :
    hasKey (cats.foldl (fun v c2 => setCategoryVisible st v c2 true) vis) c = true := by
  induction cats generalizing vis with
  | nil => cases hc
  | cons a rest ih =>
    rw [List.foldl_cons]
    rcases List.mem_cons.mp hc with rfl | hm
    · apply foldVis_true_le
      rw [hasKey_setCategoryVisible_true st vis c c hreg]
      simp
    · exact ih _ hm

theorem allCategories_perm (cmp : JSVal → JSVal → Int) (st : IngestState) :
    (allCategories cmp st).Perm (st.categoryLayers.map Prod.fst) :=
  List.perm_insertionSort _ _

end IMap

namespace IMap

theorem featureEvent_fields (f : JSVal) (e : Event) (h : featureEvent f = some e) :
    e.props = jsOr (objGet f "properties") (JSVal.vObj []) ∧
    e.category = resolveCategory (jsOr (objGet f "properties") (JSVal.vObj [])) ∧
    objGet (jsOr (objGet f "geometry") (JSVal.vObj [])) "coordinates" =
      JSVal.vArr [JSVal.vNum e.lon, JSVal.vNum e.lat] := by
  unfold featureEvent at h
  split at h
  · cases h
  split at h
  · cases h
  dsimp only at h
  split at h
  · cases h
  split at h <;> try cases h
  split at h <;> try cases h
  exact ⟨rfl, rfl, by assumption⟩

theorem charListCmp_le_total (a b : List Char) :
    charListCmp a b ≤ 0 ∨ charListCmp b a ≤ 0 := by
  induction a generalizing b with
  | nil =>
    left
    cases b <;> simp [charListCmp]
  | cons x xs ih =>
    cases b with
    | nil =>
      right
      simp [charListCmp]
    | cons y ys =>
      rcases Nat.lt_trichotomy x.toNat y.toNat with hlt | heq | hgt
      · left
        unfold charListCmp
        rw [if_pos hlt]
        decide
      · have hn1 : ¬ x.toNat < y.toNat := by omega
        have hn2 : ¬ y.toNat < x.toNat := by omega
        rcases ih ys with hc | hc
        · left
          unfold charListCmp
          rw [if_neg hn1, if_neg hn2]
          exact hc
        · right
          unfold charListCmp
          rw [if_neg hn2, if_neg hn1]
          exact hc
      · right
        unfold charListCmp
        rw [if_pos hgt]
        decide

theorem charListCmp_le_trans (a b c : List Char) (h1 : charListCmp a b ≤ 0)
    (h2 : charListCmp b c ≤ 0) : charListCmp a c ≤ 0 := by
  induction a generalizing b c with
  | nil =>
    cases c <;> simp [charListCmp]
  | cons x xs ih =>
    cases b with
    | nil =>
      unfold charListCmp at h1
      omega
    | cons y ys =>
      cases c with
      | nil =>
        unfold charListCmp at h2
        omega
      | cons z zs =>
        unfold charListCmp at h1 h2 ⊢
        rcases Nat.lt_trichotomy x.toNat y.toNat with hxy | hxy | hxy
        · rw [if_pos hxy] at h1
          rcases Nat.lt_trichotomy y.toNat z.toNat with hyz | hyz | hyz
          · rw [if_pos (Nat.lt_trans hxy hyz)]
            decide
          · rw [if_pos (by omega : x.toNat < z.toNat)]
            decide
          · rw [if_neg (by omega), if_pos hyz] at h2
            omega
        · rcases Nat.lt_trichotomy y.toNat z.toNat with hyz | hyz | hyz
          · rw [if_pos (by omega : x.toNat < z.toNat)]
            decide
          · rw [if_neg (by omega), if_neg (by omega)] at h1 h2 ⊢
            exact ih ys zs h1 h2
          · rw [if_neg (by omega), if_pos hyz] at h2
            omega
        · rw [if_neg (by omega), if_pos hxy] at h1
          omega

theorem strCmp_le_total (a b : String) : strCmp a b ≤ 0 ∨ strCmp b a ≤ 0 :=
  charListCmp_le_total a.data b.data

theorem strCmp_le_trans (a b c : String) (h1 : strCmp a b ≤ 0) (h2 : strCmp b c ≤ 0) :
    strCmp a c ≤ 0 :=
  charListCmp_le_trans a.data b.data c.data h1 h2

theorem jsCmp_le_total (a b : JSVal) : jsCmp a b ≤ 0 ∨ jsCmp b a ≤ 0 :=
  strCmp_le_total _ _

theorem jsCmp_le_trans (a b c : JSVal) (h1 : jsCmp a b ≤ 0) (h2 : jsCmp b c ≤ 0) :
    jsCmp a c ≤ 0 :=
  strCmp_le_trans _ _ _ h1 h2

end IMap

namespace IMap

/-- A feature document builder for concrete inputs: a Point feature with
one category property. -/
def mkFeature (cat : JSVal) (lon lat : Int) : JSVal :=
  JSVal.vObj [("type", JSVal.vStr "Feature"),
    ("geometry", JSVal.vObj [("type", JSVal.vStr "Point"),
      ("coordinates", JSVal.vArr [JSVal.vNum lon, JSVal.vNum lat])]),
    ("properties", JSVal.vObj [("category", cat)])]

/-- A FeatureCollection document builder for concrete inputs. -/
def mkDoc (fs : List JSVal) : JSVal :=
  JSVal.vObj [("type", JSVal.vStr "FeatureCollection"), ("features", JSVal.vArr fs)]

/-- A feed whose single feature carries the numeric category 0: pickProp
returns the raw number (its string form "0" is non-blank), the counts map
keys it under 0, but the layer map normalizes the falsy value to
"Uncategorised". -/
def docZeroCat : JSVal := mkDoc [mkFeature (JSVal.vNum 0) 10 20]

/-- C1: every ingested feed yields exactly the surviving features as
Events, in input order, with no reordering and no deduplication, and the
number of Events is the number of input features minus the skipped
ones. -/
theorem ingest_count_and_order (doc : JSVal) (st : IngestState)
    (hok : ingest doc = Except.ok st) :
    st.allMarkers = (featuresOf doc).filterMap featureEvent ∧
    st.allMarkers.length =
      (featuresOf doc).length -
        ((featuresOf doc).filter (fun f => (featureEvent f).isNone)).length := by
  have hst := ingest_ok_state doc st hok
  subst hst
  have hm : ((featuresOf doc).foldl ingestFeature initState).allMarkers
      = (featuresOf doc).filterMap featureEvent := by
    simpa using foldl_ingest_allMarkers (featuresOf doc) initState
  refine ⟨hm, ?_⟩
  rw [hm]
  have := filterMap_length_add (featuresOf doc)
  omega

/-- Concrete feed for the C1 witness: two surviving Point features and a
skipped Polygon feature between them. -/
def docC1 : JSVal := mkDoc [mkFeature (JSVal.vStr "Piracy") 10 20,
  JSVal.vObj [("type", JSVal.vStr "Feature"),
    ("geometry", JSVal.vObj [("type", JSVal.vStr "Polygon")]),
    ("properties", JSVal.vObj [])],
  mkFeature JSVal.vUndef 30 40]

/-- Witness for C1 at a concrete three-feature feed. -/
theorem ingest_count_and_order_witness :
    (stateOf docC1).allMarkers = (featuresOf docC1).filterMap featureEvent ∧
    (stateOf docC1).allMarkers.length =
      (featuresOf docC1).length -
        ((featuresOf docC1).filter (fun f => (featureEvent f).isNone)).length :=
  ingest_count_and_order docC1 (stateOf docC1) rfl

/-- C2: the Property Resolver returns the raw untrimmed value of the
first candidate key in list order whose value is present and non-blank
after trimming, regardless of the later keys, and returns the fallback
when every candidate key is absent or blank (no error is signalled:
pickProp is total). -/
theorem pickProp_first_nonblank (obj : JSVal) (fb : JSVal) (ks1 : List String)
    (k : String) (ks2 : List String) (keys : List String)
    (h1 : ∀ x ∈ ks1, blankProp obj x = true)
    (h2 : blankProp obj k = false)
    (hall : ∀ x ∈ keys, blankProp obj x = true) :
    pickProp obj (ks1 ++ k :: ks2) fb = objGet obj k ∧
    pickProp obj keys fb = fb :=
  ⟨pickProp_first obj fb ks1 k ks2 h1 h2, pickProp_blank_all obj keys fb hall⟩

/-- Concrete record for the C2 witness: a blank first candidate, an
untrimmed second value, a non-blank later key that must be ignored. -/
def objC2 : JSVal := JSVal.vObj [("a", JSVal.vStr "   "), ("b", JSVal.vStr " x "),
  ("c", JSVal.vStr "ignored")]

/-- Witness for C2 at a concrete record: the raw untrimmed value of the
first non-blank key is returned; an all-blank key list falls back. -/
theorem pickProp_first_nonblank_witness :
    pickProp objC2 (["a"] ++ "b" :: ["c"]) (JSVal.vStr "fb") = objGet objC2 "b" ∧
    pickProp objC2 ["a", "missing"] (JSVal.vStr "fb") = JSVal.vStr "fb" :=
  pickProp_first_nonblank objC2 (JSVal.vStr "fb") ["a"] "b" ["c"] ["a", "missing"]
    (by decide) (by decide) (by decide)

/-- C3: ingestion fails wholesale exactly when the top-level document
shape is wrong (falsy document, type discriminator other than
"FeatureCollection", or features not an array); on success every feature
is processed — a problem local to one feature only drops that feature and
never aborts the rest of the batch. -/
theorem ingest_fatal_iff (doc : JSVal) :
    ((∃ msg, ingest doc = Except.error msg) ↔
      (truthy doc = false ∨ objGet doc "type" ≠ JSVal.vStr "FeatureCollection" ∨
        ∀ l, objGet doc "features" ≠ JSVal.vArr l)) ∧
    (∀ st, ingest doc = Except.ok st →
      st.allMarkers = (featuresOf doc).filterMap featureEvent) := by
  have hiff : malformedFeed doc = true ↔
      (truthy doc = false ∨ objGet doc "type" ≠ JSVal.vStr "FeatureCollection" ∨
        ∀ l, objGet doc "features" ≠ JSVal.vArr l) := by
    unfold malformedFeed
    simp only [Bool.or_eq_true, Bool.not_eq_true', bne_iff_ne]
    constructor
    · rintro ((h | h) | h)
      · exact Or.inl h
      · exact Or.inr (Or.inl h)
      · refine Or.inr (Or.inr ?_)
        intro l hl
        rw [hl] at h
        simp at h
    · rintro (h | h | h)
      · exact Or.inl (Or.inl h)
      · exact Or.inl (Or.inr h)
      · refine Or.inr ?_
        cases hf : objGet doc "features" <;> simp
        exact absurd hf (h _)
  constructor
  · constructor
    · rintro ⟨msg, hmsg⟩
      unfold ingest at hmsg
      split at hmsg
      · exact hiff.mp (by assumption)
      · cases hmsg
    · intro hbad
      unfold ingest
      rw [if_pos (hiff.mpr hbad)]
      exact ⟨_, rfl⟩
  · intro st hok
    rw [ingest_ok_state doc st hok]
    simpa using foldl_ingest_allMarkers (featuresOf doc) initState

/-- C4: when every candidate category key of an ingested feature is
absent or blank after trimming — in particular when the category property
is a whitespace-only string — the Event receives the placeholder category
"Uncategorised", never the whitespace string. -/
theorem category_blank_fallback (f : JSVal) (e : Event)
    (h : featureEvent f = some e)
    (hblank : ∀ k ∈ ["category", "category *", "category*"], blankProp e.props k = true) :
    e.category = JSVal.vStr "Uncategorised" := by
  obtain ⟨hp, hc, _⟩ := featureEvent_fields f e h
  rw [hc, ← hp]
  unfold resolveCategory
  exact pickProp_blank_all e.props _ _ hblank

/-- Concrete properties object for the C4 witness: the category property
is the whitespace string and no alternate spelling is present. -/
def propsC4 : JSVal := JSVal.vObj [("category", JSVal.vStr " ")]

/-- Concrete feature for the C4 witness. -/
def featC4 : JSVal := JSVal.vObj [("type", JSVal.vStr "Feature"),
  ("geometry", JSVal.vObj [("type", JSVal.vStr "Point"),
    ("coordinates", JSVal.vArr [JSVal.vNum 10, JSVal.vNum 20])]),
  ("properties", propsC4)]

/-- The Event produced from featC4. -/
def eventC4 : Event :=
  { lat := 20, lon := 10, props := propsC4,
    category := resolveCategory propsC4, popup := popupHTML propsC4 }

/-- Witness for C4: the whitespace-only category resolves to the
placeholder at a concrete feature. -/
theorem category_blank_fallback_witness :
    eventC4.category = JSVal.vStr "Uncategorised" :=
  category_blank_fallback featC4 eventC4 rfl (by decide)

end IMap

namespace IMap

/-- C5 counterexample: a feature whose coordinates are [500, 300] — far
outside the [-180,180] and [-90,90] ranges — still survives ingestion as
an Event with latitude 300; the loop only checks typeof, never the
range. -/
def docC5 : JSVal := mkDoc [mkFeature (JSVal.vStr "A") 500 300]

/-- Counterexample for C5: ingestion of docC5 keeps the event with
latitude 300, which is not in [-90, 90], so not every surviving Event has
a latitude in that range. -/
theorem position_range_cex :
    (ingestEvents docC5).map Event.lat = [300] ∧
    (ingestEvents docC5).map Event.lon = [500] ∧
    ¬ (∀ la ∈ (ingestEvents docC5).map Event.lat, -90 ≤ la ∧ la ≤ 90) := by
  refine ⟨by decide, by decide, ?_⟩
  intro hall
  have := hall 300 (by decide)
  omega

/-- C5 (amended): every Event that survives ingestion got its latitude
and longitude as the two numeric components of the 2-element coordinates
array of its source feature (records failing the shape or typeof checks
are discarded); no range validation is performed. -/
theorem event_coords_numeric (f : JSVal) (e : Event) (h : featureEvent f = some e) :
    objGet (jsOr (objGet f "geometry") (JSVal.vObj [])) "coordinates" =
      JSVal.vArr [JSVal.vNum e.lon, JSVal.vNum e.lat] :=
  (featureEvent_fields f e h).2.2

/-- Properties object of the C5 witness feature. -/
def propsC5 : JSVal := JSVal.vObj [("category", JSVal.vStr "A")]

/-- The Event produced from the C5 witness feature. -/
def eventC5 : Event :=
  { lat := 300, lon := 500, props := propsC5,
    category := resolveCategory propsC5, popup := popupHTML propsC5 }

/-- Witness for the amended C5 at a concrete feature. -/
theorem event_coords_numeric_witness :
    objGet (jsOr (objGet (mkFeature (JSVal.vStr "A") 500 300) "geometry") (JSVal.vObj []))
        "coordinates" =
      JSVal.vArr [JSVal.vNum eventC5.lon, JSVal.vNum eventC5.lat] :=
  event_coords_numeric (mkFeature (JSVal.vStr "A") 500 300) eventC5 rfl

/-- C6: for every state reachable by ingestion and every locale
comparison that is a total preorder (as localeCompare is), the category
sequence rendered by the filter panel is sorted by that comparison and
has no duplicates, whatever the order in which the categories were first
observed. -/
theorem allCategories_sorted_nodup (doc : JSVal) (st : IngestState)
    (cmp : JSVal → JSVal → Int)
    (hok : ingest doc = Except.ok st)
    (htot : ∀ a b, cmp a b ≤ 0 ∨ cmp b a ≤ 0)
    (htrans : ∀ a b c, cmp a b ≤ 0 → cmp b c ≤ 0 → cmp a c ≤ 0) :
    (allCategories cmp st).Pairwise (fun a b => cmp a b ≤ 0) ∧
    (allCategories cmp st).Nodup := by
  constructor
  · haveI : IsTotal JSVal (fun a b => cmp a b ≤ 0) := ⟨htot⟩
    haveI : IsTrans JSVal (fun a b => cmp a b ≤ 0) := ⟨htrans⟩
    exact List.sorted_insertionSort _ _
  · have hnd : (st.categoryLayers.map Prod.fst).Nodup := by
      rw [ingest_ok_state doc st hok]
      exact (stateKeysNodup_foldl _ _ (by simp [stateKeysNodup, initState])).2
    exact ((allCategories_perm cmp st).nodup_iff).mpr hnd

/-- Concrete feed for the C6 witness: categories observed out of order
and with a repeat. -/
def docC6 : JSVal := mkDoc [mkFeature (JSVal.vStr "B") 1 2,
  mkFeature (JSVal.vStr "A") 3 4, mkFeature (JSVal.vStr "B") 5 6]

/-- Witness for C6 with the string comparator at a concrete feed. -/
theorem allCategories_sorted_nodup_witness :
    (allCategories jsCmp (stateOf docC6)).Pairwise (fun a b => jsCmp a b ≤ 0) ∧
    (allCategories jsCmp (stateOf docC6)).Nodup :=
  allCategories_sorted_nodup docC6 (stateOf docC6) jsCmp rfl jsCmp_le_total jsCmp_le_trans

/-- Counterexample for C7: on the numeric-category-0 feed the counts map
holds 1 under the number 0 while the only layer is keyed
"Uncategorised", so after select-all the visible count is 0 although the
category counts sum to 1. -/
theorem setAllVisible_count_cex :
    sumCounts (stateOf docZeroCat) = 1 ∧
    visibleCount (stateOf docZeroCat)
      (setAllVisible jsCmp (stateOf docZeroCat) (initVisible (stateOf docZeroCat)) true) = 0 ∧
    visibleCount (stateOf docZeroCat)
        (setAllVisible jsCmp (stateOf docZeroCat) (initVisible (stateOf docZeroCat)) true) ≠
      sumCounts (stateOf docZeroCat) := by
  refine ⟨by decide, by decide, by decide⟩

/-- C7 (amended): for feeds in which every resolved category value is
truthy (in particular every string category, since blank strings resolve
to the placeholder), after select-all the visible count equals the sum of
all category counts, and after select-none it equals 0, from any prior
visibility state and for any comparator ordering of the checkbox rows. -/
theorem setAllVisible_count (doc : JSVal) (st : IngestState)
    (cmp : JSVal → JSVal → Int) (vis : List JSVal)
    (hok : ingest doc = Except.ok st)
    (htruthy : ∀ f ∈ featuresOf doc,
      (featureEvent f).all (fun e => truthy e.category) = true) :
    visibleCount st (setAllVisible cmp st vis true) = sumCounts st ∧
    visibleCount st (setAllVisible cmp st vis false) = 0 := by
  have hst := ingest_ok_state doc st hok
  have hkeq : st.categoryCounts.map Prod.fst = st.categoryLayers.map Prod.fst := by
    rw [hst]
    exact keysEq_foldl _ _ (by simp [initState]) htruthy
  have hnd : stateKeysNodup st := by
    rw [hst]
    exact stateKeysNodup_foldl _ _ (by simp [stateKeysNodup, initState])
  constructor
  · rw [visibleCount_total st _ (fun k hk => by
      unfold setAllVisible
      exact foldVis_true_adds st _ vis k
        (((allCategories_perm cmp st).mem_iff).mpr hk)
        ((hasEntry_iff_mem _ _).mpr hk))]
    have hmm : st.categoryLayers.map (fun p => mapGetD st.categoryCounts p.1 0)
        = (st.categoryLayers.map Prod.fst).map (fun k => mapGetD st.categoryCounts k 0) := by
      rw [List.map_map]
      rfl
    rw [hmm, ← hkeq, sum_getD_self st.categoryCounts hnd.1]
    rfl
  · apply visibleCount_zero
    intro k hk
    unfold setAllVisible
    exact foldVis_false_kills st _ vis k
      (((allCategories_perm cmp st).mem_iff).mpr hk)
      ((hasEntry_iff_mem _ _).mpr hk)

/-- Concrete feed for the C7 witness: two string categories. -/
def docC7 : JSVal := mkDoc [mkFeature (JSVal.vStr "B") 1 2, mkFeature (JSVal.vStr "A") 3 4]

/-- Witness for the amended C7 at a concrete two-category feed. -/
theorem setAllVisible_count_witness :
    visibleCount (stateOf docC7)
        (setAllVisible jsCmp (stateOf docC7) (initVisible (stateOf docC7)) true) =
      sumCounts (stateOf docC7) ∧
    visibleCount (stateOf docC7)
        (setAllVisible jsCmp (stateOf docC7) (initVisible (stateOf docC7)) false) = 0 :=
  setAllVisible_count docC7 (stateOf docC7) jsCmp (initVisible (stateOf docC7)) rfl (by decide)

/-- Concrete feed for C8: two categories with one event each. -/
def docC8 : JSVal := mkDoc [mkFeature (JSVal.vStr "A") 1 2, mkFeature (JSVal.vStr "B") 3 4]

/-- The visibility state with category A hidden, reached from the
post-load all-visible state by one untick. -/
def visC8 : List JSVal :=
  setCategoryVisible (stateOf docC8) (initVisible (stateOf docC8)) (JSVal.vStr "A") false

/-- Counterexample for C8: starting from a state where category A is
hidden, toggling A off and then on does not return the visible count to
its prior value — it goes from 1 to 2, because the round trip leaves A
attached. -/
theorem toggle_off_on_cex :
    visibleCount (stateOf docC8) visC8 = 1 ∧
    visibleCount (stateOf docC8)
      (setCategoryVisible (stateOf docC8)
        (setCategoryVisible (stateOf docC8) visC8 (JSVal.vStr "A") false)
        (JSVal.vStr "A") true) = 2 ∧
    (2 : Nat) ≠ 1 := by
  refine ⟨by decide, by decide, by decide⟩

/-- C8 (amended): for every state in which the toggled category is
currently visible, unticking and re-ticking that single category returns
the visible count to its prior value; the recount is computed fresh from
the attachment state, so the round trip is exact. -/
theorem toggle_off_on_count (st : IngestState) (vis : List JSVal) (cat : JSVal)
    (hvis : hasKey vis cat = true) :
    visibleCount st
      (setCategoryVisible st (setCategoryVisible st vis cat false) cat true) =
    visibleCount st vis := by
  by_cases hreg : hasEntry st.categoryLayers cat = true
  · apply visibleCount_congr
    intro k _
    rw [hasKey_setCategoryVisible_true st _ cat k hreg,
      hasKey_setCategoryVisible_false st vis cat k hreg]
    by_cases hkc : k = cat
    · subst hkc
      simp [hvis]
    · simp [show (k == cat) = false by simpa using hkc,
        show (k != cat) = true by simpa using hkc]
  · rw [setCategoryVisible_unreg st _ cat true (by simpa using hreg),
      setCategoryVisible_unreg st vis cat false (by simpa using hreg)]

/-- Witness for the amended C8: from the all-visible state after loading
docC8, toggling category A off and on leaves the visible count at its
prior value. -/
theorem toggle_off_on_count_witness :
    visibleCount (stateOf docC8)
      (setCategoryVisible (stateOf docC8)
        (setCategoryVisible (stateOf docC8) (initVisible (stateOf docC8))
          (JSVal.vStr "A") false)
        (JSVal.vStr "A") true) =
    visibleCount (stateOf docC8) (initVisible (stateOf docC8)) :=
  toggle_off_on_count (stateOf docC8) (initVisible (stateOf docC8)) (JSVal.vStr "A")
    (by decide)

section FilterLemmas

variable {a b : Type} [DecidableEq a]

theorem mapGetD_filter_self (m : List (a × b)) (k : a) (d : b) :
    mapGetD (m.filter (fun p => p.1 != k)) k d = d := by
  induction m with
  | nil => rfl
  | cons p rest ih =>
    by_cases hp : p.1 = k
    · rw [List.filter_cons_of_neg (by simp [hp])]
      exact ih
    · rw [List.filter_cons_of_pos (by simpa using hp), mapGetD_cons_ne p _ k d hp]
      exact ih

theorem mapGetD_filter_ne (m : List (a × b)) (k k2 : a) (d : b) (hne : k2 ≠ k) :
    mapGetD (m.filter (fun p => p.1 != k)) k2 d = mapGetD m k2 d := by
  induction m with
  | nil => rfl
  | cons p rest ih =>
    by_cases hp : p.1 = k
    · rw [List.filter_cons_of_neg (by simp [hp]),
        mapGetD_cons_ne p rest k2 d (by rw [hp]; exact Ne.symm hne)]
      exact ih
    · rw [List.filter_cons_of_pos (by simpa using hp)]
      by_cases hp2 : p.1 = k2
      · rw [mapGetD, if_pos (by simpa using hp2), mapGetD, if_pos (by simpa using hp2)]
      · rw [mapGetD_cons_ne p _ k2 d hp2, mapGetD_cons_ne p rest k2 d hp2]
        exact ih

end FilterLemmas

/-- Deletion of a record field, the absent-key comparison point for C9. -/
def delField (fs : List (String × JSVal)) (k : String) : List (String × JSVal) :=
  fs.filter (fun p => p.1 != k)

/-- C9: the blank-after-trim fallback is uniform across all seven
resolved popup fields — storing a whitespace-only string under any key of
a record changes none of the resolved field values compared to deleting
that key, so resolution falls through to later candidate keys or to the
default for title, category, date, country, description and both geocode
fields alike. -/
theorem popup_blank_uniform (fs : List (String × JSVal)) (k : String) (s : String)
    (hs : jsTrim s = "") :
    popupFields (JSVal.vObj (mapSet fs k (JSVal.vStr s))) =
      popupFields (JSVal.vObj (delField fs k)) := by
  have hcongr : ∀ (keys : List String) (fb : JSVal),
      pickProp (JSVal.vObj (mapSet fs k (JSVal.vStr s))) keys fb =
      pickProp (JSVal.vObj (delField fs k)) keys fb := by
    intro keys fb
    apply pickProp_congr
    intro kk _
    by_cases hkk : kk = k
    · subst hkk
      right
      constructor
      · have hv : objGet (JSVal.vObj (mapSet fs kk (JSVal.vStr s))) kk = JSVal.vStr s :=
          mapGetD_mapSet_self fs kk (JSVal.vStr s) JSVal.vUndef
        simp [blankProp, hv, jsToString, hs]
      · have hv : objGet (JSVal.vObj (delField fs kk)) kk = JSVal.vUndef :=
          mapGetD_filter_self fs kk JSVal.vUndef
        simp [blankProp, hv]
    · have hv1 : objGet (JSVal.vObj (mapSet fs k (JSVal.vStr s))) kk =
          objGet (JSVal.vObj fs) kk :=
        mapGetD_mapSet_ne fs k kk (JSVal.vStr s) JSVal.vUndef hkk
      have hv2 : objGet (JSVal.vObj (delField fs k)) kk = objGet (JSVal.vObj fs) kk :=
        mapGetD_filter_ne fs k kk JSVal.vUndef hkk
      left
      rw [hv1, hv2]
  unfold popupFields resolveTitle resolveCategory resolveDate resolveCountry
    resolveDescription resolveConfidence resolveMethod
  rw [hcongr, hcongr, hcongr, hcongr, hcongr, hcongr, hcongr]

/-- Concrete record for the C9 witness. -/
def fsC9 : List (String × JSVal) := [("title", JSVal.vStr "T"), ("country", JSVal.vStr "X")]

/-- Witness for C9: replacing the country value by a whitespace-only
string resolves every popup field the same as deleting the key. -/
theorem popup_blank_uniform_witness :
    popupFields (JSVal.vObj (mapSet fsC9 "country" (JSVal.vStr " "))) =
      popupFields (JSVal.vObj (delField fsC9 "country")) :=
  popup_blank_uniform fsC9 "country" " " (by decide)

/-- Counterexample for C10: on the numeric-category-0 feed the key sets
of the two registries diverge after ingestion — the counts map is keyed
by the number 0, the layer map by the string "Uncategorised". -/
theorem registry_keys_cex :
    (stateOf docZeroCat).categoryCounts.map Prod.fst = [JSVal.vNum 0] ∧
    (stateOf docZeroCat).categoryLayers.map Prod.fst = [JSVal.vStr "Uncategorised"] ∧
    JSVal.vNum 0 ∉ (stateOf docZeroCat).categoryLayers.map Prod.fst := by
  refine ⟨by decide, by decide, by decide⟩

/-- C10 (amended): when every resolved category value is truthy (always
the case for string categories), after each processed feature the key
list of the per-category count map equals the key list of the
per-category layer map, and the count stored under any key never
decreases across a processing step. -/
theorem registry_keys_inv (features : List JSVal) (n : Nat) (st : IngestState)
    (f : JSVal) (k : JSVal)
    (htruthy : ∀ f2 ∈ features, (featureEvent f2).all (fun e => truthy e.category) = true) :
    (((features.take n).foldl ingestFeature initState).categoryCounts.map Prod.fst =
      ((features.take n).foldl ingestFeature initState).categoryLayers.map Prod.fst) ∧
    mapGetD st.categoryCounts k 0 ≤ mapGetD (ingestFeature st f).categoryCounts k 0 := by
  constructor
  · apply keysEq_foldl
    · simp [initState]
    · intro f2 hf2
      exact htruthy f2 (List.take_subset n features hf2)
  · cases hfe : featureEvent f with
    | none => rw [ingestFeature_skip st f hfe]
    | some e =>
      rw [ingestFeature_some st f e hfe]
      by_cases hk : k = e.category
      · rw [hk]
        show mapGetD st.categoryCounts e.category 0 ≤
          mapGetD (mapSet st.categoryCounts e.category
            (mapGetD st.categoryCounts e.category 0 + 1)) e.category 0
        rw [mapGetD_mapSet_self]
        omega
      · show mapGetD st.categoryCounts k 0 ≤
          mapGetD (mapSet st.categoryCounts e.category
            (mapGetD st.categoryCounts e.category 0 + 1)) k 0
        rw [mapGetD_mapSet_ne st.categoryCounts e.category k _ 0 hk]

/-- Concrete feature list for the C10 witness: a repeated string
category and a skipped feature. -/
def featsC10 : List JSVal := [mkFeature (JSVal.vStr "A") 1 2,
  mkFeature (JSVal.vStr "A") 3 4, JSVal.vNull]

/-- Witness for the amended C10 at a concrete prefix and step. -/
theorem registry_keys_inv_witness :
    ((featsC10.take 2).foldl ingestFeature initState).categoryCounts.map Prod.fst =
      ((featsC10.take 2).foldl ingestFeature initState).categoryLayers.map Prod.fst ∧
    mapGetD (stateOf (mkDoc featsC10)).categoryCounts (JSVal.vStr "A") 0 ≤
      mapGetD (ingestFeature (stateOf (mkDoc featsC10))
        (mkFeature (JSVal.vStr "A") 5 6)).categoryCounts (JSVal.vStr "A") 0 :=
  registry_keys_inv featsC10 2 (stateOf (mkDoc featsC10))
    (mkFeature (JSVal.vStr "A") 5 6) (JSVal.vStr "A") (by decide)

end IMap
